import Mathlib

/-
Verification development for the hcf_backend repository
(src/hcf_backend/backend.py).  The definitions below are a shallow
embedding of the Python source: HCFManager with its per-slot counters,
its retry loops for read/delete, and HCFBackend with its three queue
tiers, consumption quotas and polling throttle.  The memory queue and
the disk queue classes (MemQueue, DiskQueue) are not part of the given
sources; they are modelled from the spec as plain FIFO lists (push at
the back, pop at the front).  The remote Hubstorage frontier service is
an opaque collaborator; its read operation is modelled from the spec as
returning whole batches from the front of the pending queue of the slot.
-/

namespace HCFSpec

/-- Request model: the attributes of a frontier request that the embedded
code reads or writes.  The field serializable models, from the spec,
whether DiskQueue.push succeeds for this request (push raises a
serialization error exactly for non-serializable requests). -/
structure Request where
  url : String
  meta_fingerprint : String
  meta_slot_override : Option String
  meta_n_slots : Option Nat
  meta_depth : Nat
  meta_created_at : Option Int
  meta_scrapy_meta : Bool
  serializable : Bool
deriving DecidableEq, Repr

/-- Batch: a remote-queue batch, an id plus ordered (fingerprint, qdata)
pairs; qdata is kept opaque as a string. -/
structure Batch where
  id : String
  requests : List (String × String)
deriving DecidableEq, Repr

/-- Remote side effects issued by HCFManager, recorded as events so that
theorems can talk about which remote calls were made. -/
inductive RemoteEvent where
  | addEv (slot : String)
  | flushAllEv
  | flushSlotEv (slot : String)
deriving DecidableEq, Repr

/-- HCFManager state: the two per-slot counter dictionaries
(_links_count and _links_to_flush_count, both defaultdict(int), modelled
as total functions with default 0), the list of keys present in the
flush-counter dictionary (needed because flush(None) iterates and sums
over dictionary entries), and the configured batch size. -/
structure HCFManager where
  links_count : String → Nat
  links_to_flush_count : String → Nat
  slots : List String
  batch_size : Nat

/-- Result of an HCFManager operation: returned number, new state, and
the remote calls that were issued. -/
structure MgrRes where
  n : Nat
  mgr : HCFManager
  events : List RemoteEvent

/-- Dictionary key insertion: defaultdict gains a key the first time it
is indexed. -/
def addKey (ks : List String) (s : String) : List String :=
  if s ∈ ks then ks else ks ++ [s]

/-- HCFManager.get_number_of_links_to_flush: for None, the sum of the
values of the flush-counter dictionary; for a slot, its counter. -/
def get_number_of_links_to_flush (m : HCFManager) : Option String → Nat
  | none => (m.slots.map m.links_to_flush_count).sum
  | some s => m.links_to_flush_count s

/-- HCFManager.flush: reads the number of links to flush; when nonzero,
issues the remote flush (global, or the writer of one slot) and zeroes
the counters touched.  Indexing the defaultdict with a concrete slot
inserts that key, which the model records in slots. -/
def flush (m : HCFManager) (slot : Option String) : MgrRes :=
  match slot with
  | none =>
    let n := get_number_of_links_to_flush m none
    if n ≠ 0 then
      ⟨n,
       { m with links_to_flush_count :=
           fun t => if t ∈ m.slots then 0 else m.links_to_flush_count t },
       [RemoteEvent.flushAllEv]⟩
    else ⟨n, m, []⟩
  | some s =>
    let m0 : HCFManager := { m with slots := addKey m.slots s }
    let n := m0.links_to_flush_count s
    if n ≠ 0 then
      ⟨n,
       { m0 with links_to_flush_count :=
           fun t => if t = s then 0 else m0.links_to_flush_count t },
       [RemoteEvent.flushSlotEv s]⟩
    else ⟨n, m0, []⟩

/-- The counter increments performed by add_request: both dictionaries
gain one on the slot (and the key is inserted). -/
def bumpCounters (m : HCFManager) (slot : String) : HCFManager :=
  { m with
    links_count :=
      fun t => if t = slot then m.links_count slot + 1 else m.links_count t,
    links_to_flush_count :=
      fun t => if t = slot then m.links_to_flush_count slot + 1
               else m.links_to_flush_count t,
    slots := addKey m.slots slot }

/-- The flush trigger of add_request: a batch size is configured and the
flush counter of the slot, after the increment, reached it. -/
def flushNeeded (m : HCFManager) (slot : String) : Bool :=
  decide (m.batch_size ≠ 0) &&
  decide (m.batch_size ≤ m.links_to_flush_count slot + 1)

/-- HCFManager.add_request: forwards the record to the remote add,
increments both counters of the slot, and, when a batch size is
configured and the flush counter reached it, returns flush(slot);
otherwise returns 0. -/
def add_request (m : HCFManager) (slot : String) : MgrRes :=
  if flushNeeded m slot then
    let f := flush (bumpCounters m slot) (some slot)
    ⟨f.n, f.mgr, RemoteEvent.addEv slot :: f.events⟩
  else ⟨0, bumpCounters m slot, [RemoteEvent.addEv slot]⟩

/-- Outcome of one transport attempt against the remote service: success,
or one of the three caught exception kinds (ReadTimeout, ConnectionError,
any other RequestException). -/
inductive Transport (α : Type) where
  | ok (val : α)
  | readTimeout
  | connectionError
  | requestException

def Transport.isOk {α : Type} : Transport α → Bool
  | .ok _ => true
  | _ => false

/-- HCFManager._hcf_retries. -/
def hcf_retries : Nat := 10

/-- Shared retry loop of read and delete: attempt i, then i+1, ... while
attempts keep failing and fuel (the retry budget) remains; returns the
first success, if any, and the number of attempts performed. -/
def attemptLoop {α : Type} (attempts : Nat → Transport α) :
    Nat → Nat → Option α × Nat
  | _, 0 => (none, 0)
  | i, fuel + 1 =>
    match attempts i with
    | .ok v => (some v, 1)
    | _ =>
      let r := attemptLoop attempts (i + 1) fuel
      (r.1, r.2 + 1)

/-- HCFManager.read: up to hcf_retries attempts; the first success is
returned; exhaustion degrades to the empty list (no exception escapes).
Also returns the number of attempts performed. -/
def read (attempts : Nat → Transport (List Batch)) : List Batch × Nat :=
  match attemptLoop attempts 0 hcf_retries with
  | (some v, n) => (v, n)
  | (none, n) => ([], n)

/-- HCFManager.delete: up to hcf_retries attempts, stopping at the first
success; exhaustion returns normally with no deletion performed.  The
boolean records whether the remote deletion happened; the number is the
attempts performed. -/
def delete (attempts : Nat → Transport Unit) : Bool × Nat :=
  match attemptLoop attempts 0 hcf_retries with
  | (some _, n) => (true, n)
  | (none, n) => (false, n)

/-- Result of one local drain loop: the items popped, the remaining
queue, and the running request count after the loop. -/
structure DrainRes where
  taken : List Request
  rest : List Request
  count : Int
deriving Repr

/-- The local drain loop of get_next_requests: while the queue is
non-empty and the running count is below the limit, pop one item and
increment the count. -/
def drain : List Request → Int → Int → DrainRes
  | [], cnt, _ => ⟨[], [], cnt⟩
  | r :: q, cnt, lim =>
    if cnt < lim then
      let d := drain q (cnt + 1) lim
      ⟨r :: d.taken, d.rest, d.count⟩
    else ⟨[], r :: q, cnt⟩

/-- HCFBackend state, restricted to the fields that the embedded
operations read or write.  Time is modelled as an integer; the memory
queue and the (optional) disk queue are FIFO lists modelled from the
spec; the pending content of the remote consumer slot is threaded
separately as a list of batches. -/
structure Backend where
  consumer : Bool
  hcf_consumer_max_batches : Nat
  hcf_consumer_max_requests : Nat
  n_consumed_batches : Nat
  n_consumed_requests : Nat
  memory_queue : List Request
  disk_queue : Option (List Request)
  max_memory_queue : Nat
  delay_next_requests_from_hs : Int
deriving DecidableEq, Repr

/-- HCFBackend._consumer_max_batches_reached. -/
def consumer_max_batches_reached (maxB nB : Nat) : Bool :=
  if maxB = 0 then false else decide (maxB ≤ nB)

/-- HCFBackend._consumer_max_requests_reached. -/
def consumer_max_requests_reached (maxR nR : Nat) : Bool :=
  if maxR = 0 then false else decide (maxR ≤ nR)

/-- Clamp of step 1 of get_next_requests: when a request quota is
configured, the per-call limit becomes min of the argument and the quota
minus the requests consumed so far. -/
def clampMax (b : Backend) (max0 : Int) : Int :=
  if 0 < b.hcf_consumer_max_requests then
    min max0 ((b.hcf_consumer_max_requests : Int) - (b.n_consumed_requests : Int))
  else max0

/-- The guard of the remote-pull branch of get_next_requests: a consumer
role is configured, neither quota is reached, and either the local drain
produced nothing or the polling-throttle deadline has passed. -/
def pullGuard (b : Backend) (localReqs : List Request) (now : Int) : Bool :=
  b.consumer &&
  !(consumer_max_batches_reached b.hcf_consumer_max_batches b.n_consumed_batches ||
    consumer_max_requests_reached b.hcf_consumer_max_requests b.n_consumed_requests) &&
  (localReqs.isEmpty || decide (b.delay_next_requests_from_hs < now))

/-- DELAY_HS_READ. -/
def delay_hs_read : Int := 30

/-- Modelled from the spec: the remote read of the opaque Hubstorage
frontier returns whole batches from the front of the pending queue of
the slot, taking the smallest prefix whose total request count reaches
mincount, or everything pending when fewer remain. -/
def readBatches (remote : List Batch) (mincount : Int) : List Batch :=
  match remote with
  | [] => []
  | bt :: rest =>
    if mincount ≤ 0 then []
    else bt :: readBatches rest (mincount - (bt.requests.length : Int))

/-- Per-batch processing of _get_requests_from_hs: each (fingerprint,
qdata) pair goes through the pluggable hcf_make_request; a None result is
dropped; accepted requests get created_at set to now, depth reset to 0
and the scrapy_meta key ensured. -/
def acceptBatch (make : String → String → Option Request) (now : Int)
    (bt : Batch) : List Request :=
  bt.requests.filterMap (fun p =>
    (make p.1 p.2).map (fun r =>
      { r with meta_created_at := some now, meta_depth := 0,
               meta_scrapy_meta := true }))

/-- Result of _get_requests_from_hs: the requests returned, the remaining
remote pending batches, the new consumed-batches and consumed-requests
counters, and the number of remote read calls issued. -/
structure HSRes where
  returned : List Request
  remote : List Batch
  nB : Nat
  nR : Nat
  reads : Nat
deriving Repr

/-- The loop of _get_requests_from_hs: while the last read returned data,
the accumulated count is below the requested minimum and neither quota is
reached, issue a read for the original minimum, append every accepted
request of every returned batch, then delete the consumed batches (which
removes them from the pending queue) and bump the consumed-batches
counter.  The consumed-requests counter is bumped once per accepted
request.  Fuel bounds the recursion; every productive iteration consumes
at least one pending batch, so remote.length + 1 suffices. -/
def hsLoop (make : String → String → Option Request) (now : Int)
    (maxB maxR : Nat) (n_min : Int) :
    Nat → List Batch → List Request → Nat → Nat → Nat → HSRes
  | 0, remote, acc, nB, nR, reads => ⟨acc, remote, nB, nR, reads⟩
  | fuel + 1, remote, acc, nB, nR, reads =>
    if (acc.length : Int) < n_min ∧
       consumer_max_batches_reached maxB nB = false ∧
       consumer_max_requests_reached maxR nR = false then
      let batches := readBatches remote n_min
      let accepted := (batches.map (acceptBatch make now)).flatten
      if batches.isEmpty then
        ⟨acc ++ accepted, remote, nB, nR + accepted.length, reads + 1⟩
      else
        hsLoop make now maxB maxR n_min fuel (remote.drop batches.length)
          (acc ++ accepted) (nB + batches.length) (nR + accepted.length)
          (reads + 1)
    else ⟨acc, remote, nB, nR, reads⟩

/-- HCFBackend._get_requests_from_hs, entered with the counters of the
backend. -/
def getRequestsFromHS (make : String → String → Option Request) (now : Int)
    (b : Backend) (remote : List Batch) (n_min : Int) : HSRes :=
  hsLoop make now b.hcf_consumer_max_batches b.hcf_consumer_max_requests
    n_min (remote.length + 1) remote [] b.n_consumed_batches
    b.n_consumed_requests 0

/-- The memory-queue drain of get_next_requests (step 2). -/
def memDrain (b : Backend) (max0 : Int) : DrainRes :=
  drain b.memory_queue 0 (clampMax b max0)

/-- The disk-queue drain of get_next_requests (step 3); skipped when no
disk queue is configured. -/
def diskDrain (b : Backend) (max0 : Int) : DrainRes :=
  match b.disk_queue with
  | none => ⟨[], [], (memDrain b max0).count⟩
  | some dq => drain dq (memDrain b max0).count (clampMax b max0)

/-- The requests obtained from the local tiers in one call. -/
def localRequests (b : Backend) (max0 : Int) : List Request :=
  (memDrain b max0).taken ++ (diskDrain b max0).taken

/-- Result of get_next_requests: the returned requests, the new backend
state, the remaining remote pending batches, and the number of remote
read calls issued during the call. -/
structure GNR where
  requests : List Request
  backend : Backend
  remote : List Batch
  reads : Nat
deriving Repr

/-- HCFBackend.get_next_requests: clamp the limit to the request quota
remainder, drain memory then disk under the running count, then, when the
pull guard holds, pull the remainder from the remote queue and reset the
polling-throttle deadline to now + DELAY_HS_READ. -/
def get_next_requests (make : String → String → Option Request) (now : Int)
    (b : Backend) (remote : List Batch) (max0 : Int) : GNR :=
  let md := memDrain b max0
  let dd := diskDrain b max0
  let localReqs := md.taken ++ dd.taken
  let b1 : Backend :=
    { b with
      memory_queue := md.rest,
      disk_queue := match b.disk_queue with
        | none => none
        | some _ => some dd.rest }
  if pullGuard b localReqs now then
    let hs := getRequestsFromHS make now b remote (clampMax b max0 - dd.count)
    ⟨localReqs ++ hs.returned,
     { b1 with
       n_consumed_batches := hs.nB,
       n_consumed_requests := hs.nR,
       delay_next_requests_from_hs := now + delay_hs_read },
     hs.remote, hs.reads⟩
  else ⟨localReqs, b1, remote, 0⟩

/-- Iterated calls to get_next_requests, threading the backend state and
the remote pending queue through a list of (now, maxRequests) call
inputs; returns the total number of remote read calls issued. -/
def runCalls (make : String → String → Option Request) :
    Backend → List Batch → List (Int × Int) → Nat
  | _, _, [] => 0
  | b, remote, (now, mx) :: rest =>
    let g := get_next_requests make now b remote mx
    g.reads + runCalls make g.backend g.remote rest

/-- One step of the disk-overflow loop of page_crawled: try to push the
request to the disk queue; a serialization error (exactly the
non-serializable requests, per the spec of DiskQueue.push) falls back to
pushing the request to the memory queue.  The none branch is unreachable
in page_crawled because the overflow remainder is empty when no disk
queue is configured. -/
def pushLocal (st : Backend) (r : Request) : Backend :=
  if r.serializable then
    match st.disk_queue with
    | some dq => { st with disk_queue := some (dq ++ [r]) }
    | none => st
  else
    { st with memory_queue := st.memory_queue ++ [r] }

/-- HCFBackend.page_crawled together with the _page_crawled generator:
links selected by the pluggable store predicate go to the producer
HCFManager under the slot chosen by the pluggable slot callback; the
remaining (locally-bound) links are split: with no disk queue they all go
to memory, otherwise the first max_memory_queue - len(memory_queue) go to
memory (each with its depth meta incremented) and the remainder is pushed
to disk with the serialization fallback. -/
def page_crawled (store : Request → Bool) (getSlot : Request → String)
    (b : Backend) (prod : HCFManager) (links : List Request) :
    Backend × HCFManager :=
  let direct := links.filter (fun r => !store r)
  let prod2 := (links.filter (fun r => store r)).foldl
    (fun m l => (add_request m (getSlot l)).mgr) prod
  let to_mem : Int :=
    match b.disk_queue with
    | none => (direct.length : Int)
    | some _ => (b.max_memory_queue : Int) - (b.memory_queue.length : Int)
  let parts :=
    if 0 < to_mem then (direct.take to_mem.toNat, direct.drop to_mem.toNat)
    else ([], direct)
  let b1 : Backend :=
    { b with memory_queue :=
        b.memory_queue ++
          parts.1.map (fun r => { r with meta_depth := r.meta_depth + 1 }) }
  (parts.2.foldl pushLocal b1, prod2)

/-- Value of one hexadecimal digit. -/
def hexDigitVal (c : Char) : Option Nat :=
  if '0' ≤ c ∧ c ≤ '9' then some (c.toNat - '0'.toNat)
  else if 'a' ≤ c ∧ c ≤ 'f' then some (c.toNat - 'a'.toNat + 10)
  else if 'A' ≤ c ∧ c ≤ 'F' then some (c.toNat - 'A'.toNat + 10)
  else none

/-- The Python int(fingerprint, 16) conversion on plain hexadecimal
strings (fingerprints are hex digests; the sign, whitespace and
underscore forms accepted by int never occur): none on the empty string
or on any non-hex character, where int raises. -/
def hexVal (s : String) : Option Nat :=
  if s.isEmpty then none
  else s.data.foldl
    (fun acc c =>
      match acc, hexDigitVal c with
      | some a, some d => some (a * 16 + d)
      | _, _ => none)
    (some 0)

/-- HCFBackend._get_producer_slot_name: slot-name prefix ++ slot number. -/
def get_producer_slot_name (pre slotno : String) : String := pre ++ slotno

/-- HCFBackend._producer_get_slot_callback: an explicit
hcf_producer_slot meta override is returned verbatim; otherwise the slot
count is the per-request override or the process-wide count, and the slot
is the prefix plus the fingerprint read as base 16 modulo the count.
Returns none where the Python raises (invalid hex fingerprint, or a zero
slot count, where the modulo raises ZeroDivisionError). -/
def producer_get_slot (pre : String) (number_of_slots : Nat)
    (r : Request) : Option String :=
  match r.meta_slot_override with
  | some s => some s
  | none =>
    let n := r.meta_n_slots.getD number_of_slots
    if n = 0 then none
    else
      match hexVal r.meta_fingerprint with
      | some v => some (get_producer_slot_name pre (toString (v % n)))
      | none => none

/-- Operations on one HCFManager, for stating invariants over arbitrary
histories. -/
inductive MgrOp where
  | addReq (slot : String)
  | flushOp (slot : Option String)

/-- State reached after one operation. -/
def applyOp (m : HCFManager) : MgrOp → HCFManager
  | .addReq s => (add_request m s).mgr
  | .flushOp s => (flush m s).mgr

/-- State reached after a sequence of operations. -/
def runOps (m : HCFManager) : List MgrOp → HCFManager
  | [] => m
  | op :: rest => runOps (applyOp m op) rest

/-- A freshly constructed HCFManager: both counter dictionaries empty. -/
def initMgr (batch_size : Nat) : HCFManager :=
  ⟨fun _ => 0, fun _ => 0, [], batch_size⟩

/-- Well-formed HCFManager: slots not present in the flush-counter
dictionary have the default counter value 0 (true of every state the
code can reach, since indexing inserts the key). -/
def MgrWF (m : HCFManager) : Prop :=
  ∀ s, s ∉ m.slots → m.links_to_flush_count s = 0

/-- Remaining part of get_next_requests past the local tiers: the
requests pulled from the remote queue, empty when the pull guard does
not hold. -/
def remotePulled (make : String → String → Option Request) (now : Int)
    (b : Backend) (remote : List Batch) (max0 : Int) : List Request :=
  if pullGuard b (localRequests b max0) now then
    (getRequestsFromHS make now b remote
      (clampMax b max0 - (diskDrain b max0).count)).returned
  else []

/-- A plain request used for concrete examples: url and fingerprint u,
no overrides. -/
def baseReq (u : String) : Request :=
  ⟨u, u, none, none, 0, none, false, true⟩

/-- A concrete hcf_make_request strategy for examples: rebuild a plain
request from the fingerprint. -/
def mk1 : String → String → Option Request :=
  fun fp _ => some (baseReq fp)

def reqA : Request := baseReq "A"
def reqB : Request := baseReq "B"
def reqC : Request := baseReq "C"

/-- The request the remote tier yields in the drain-order example: the
rebuilt request after the consumer meta updates (created_at, depth 0,
scrapy_meta). -/
def reqD : Request := ⟨"D", "D", none, none, 0, some 100, true, true⟩

/-- A non-serializable locally-bound request. -/
def reqN : Request := ⟨"N", "N", none, none, 0, none, false, false⟩

/-- A request carrying an explicit slot override. -/
def reqOver : Request := ⟨"u", "ff", some "X", none, 0, none, false, true⟩

/-- Backend for the drain-order example: consumer role, no quotas,
memory [A, B], disk [C], throttle deadline in the past. -/
def bC2 : Backend := ⟨true, 0, 0, 0, 0, [reqA, reqB], some [reqC], 1000, 0⟩

/-- The remote batch holding D. -/
def batchD : Batch := ⟨"b1", [("D", "q")]⟩

/-- Backend for the per-call-cap counterexample: request quota 5 with 4
already consumed, empty local tiers. -/
def bC1 : Backend := ⟨true, 0, 5, 0, 4, [], none, 1000, 0⟩

/-- A remote batch holding two requests. -/
def batch2 : Batch := ⟨"b1", [("D", "q"), ("E", "q")]⟩

/-- Backend with the request quota already exhausted and a non-empty
memory queue. -/
def bC10 : Backend := ⟨true, 0, 5, 0, 5, [reqA], none, 1000, 0⟩

/-- Backend with the batches quota already exhausted. -/
def bC5 : Backend := ⟨true, 3, 0, 3, 0, [], none, 1000, 0⟩

/-- Backend with a consumer role, no quotas, empty local tiers. -/
def bC5b : Backend := ⟨true, 0, 0, 0, 0, [], none, 1000, 0⟩

/-- Backend with a configured but full disk queue: capacity 0, so every
locally-bound link goes through the disk-push path. -/
def bC9 : Backend := ⟨false, 0, 0, 0, 0, [], some [], 0, 0⟩

/-- Store predicate keeping every link local. -/
def storeNone : Request → Bool := fun _ => false

/-- Constant slot strategy for examples. -/
def slotConst : Request → String := fun _ => "s"

/-- Manager one link short of its batch size on every slot. -/
def m3a : HCFManager := ⟨fun _ => 1, fun _ => 1, ["a"], 2⟩

/-- Fresh manager with batch size 2. -/
def m3b : HCFManager := initMgr 2

/-- Fresh manager with no batch size configured. -/
def m3c : HCFManager := initMgr 0

/-- Manager with two links pending flush on slot a only. -/
def m7 : HCFManager := ⟨fun _ => 2, fun t => if t = "a" then 2 else 0, ["a"], 0⟩

/-- Transport oracle that always times out. -/
def failRead : Nat → Transport (List Batch) := fun _ => Transport.readTimeout

/-- Transport oracle that always raises a generic request exception. -/
def failDel : Nat → Transport Unit := fun _ => Transport.requestException

section Lemmas

/-- The drain loop takes exactly the first (lim - cnt).toNat elements and
advances the count by the number taken. -/
theorem drain_eq (q : List Request) : ∀ (cnt lim : Int),
    drain q cnt lim =
      ⟨q.take (lim - cnt).toNat, q.drop (lim - cnt).toNat,
       cnt + ((min q.length (lim - cnt).toNat : Nat) : Int)⟩ := by
  induction q with
  | nil =>
    intro cnt lim
    simp [drain]
  | cons r rest ih =>
    intro cnt lim
    by_cases h : cnt < lim
    · have ht : (lim - cnt).toNat = (lim - (cnt + 1)).toNat + 1 := by omega
      simp only [drain, if_pos h, ih (cnt + 1) lim, ht, List.take_succ_cons,
        List.drop_succ_cons, List.length_cons, DrainRes.mk.injEq, true_and]
      omega
    · have ht : (lim - cnt).toNat = 0 := by omega
      simp [drain, h, ht]

/-- Branch equation of flush on None. -/
theorem flush_none_eq (m : HCFManager) :
    flush m none =
      if (m.slots.map m.links_to_flush_count).sum ≠ 0 then
        ⟨(m.slots.map m.links_to_flush_count).sum,
         { m with links_to_flush_count :=
             fun t => if t ∈ m.slots then 0 else m.links_to_flush_count t },
         [RemoteEvent.flushAllEv]⟩
      else ⟨(m.slots.map m.links_to_flush_count).sum, m, []⟩ := rfl

/-- Branch equation of flush on a slot. -/
theorem flush_some_eq (m : HCFManager) (s : String) :
    flush m (some s) =
      if m.links_to_flush_count s ≠ 0 then
        ⟨m.links_to_flush_count s,
         { m with
           slots := addKey m.slots s
           links_to_flush_count :=
             fun t => if t = s then 0 else m.links_to_flush_count t },
         [RemoteEvent.flushSlotEv s]⟩
      else ⟨m.links_to_flush_count s,
            { m with slots := addKey m.slots s }, []⟩ := rfl

/-- The pending-flush count for None is the dictionary sum. -/
theorem gnl_none (m : HCFManager) :
    get_number_of_links_to_flush m none =
      (m.slots.map m.links_to_flush_count).sum := rfl

/-- The pending-flush count for a slot is its counter. -/
theorem gnl_some (m : HCFManager) (s : String) :
    get_number_of_links_to_flush m (some s) = m.links_to_flush_count s := rfl

/-- A global flush over an all-zero dictionary returns 0 and issues no
remote call. -/
theorem flush_none_zero (m : HCFManager)
    (h : (m.slots.map m.links_to_flush_count).sum = 0) :
    (flush m none).n = 0 ∧ (flush m none).events = [] := by
  rw [flush_none_eq, if_neg (not_not_intro h)]
  exact ⟨h, rfl⟩

/-- A slot flush over a zero counter returns 0 and issues no remote
call. -/
theorem flush_some_zero (m : HCFManager) (s : String)
    (h : m.links_to_flush_count s = 0) :
    (flush m (some s)).n = 0 ∧ (flush m (some s)).events = [] := by
  rw [flush_some_eq, if_neg (not_not_intro h)]
  exact ⟨h, rfl⟩

/-- Flushing leaves the links-added counters unchanged and never
increases a flush counter. -/
theorem flush_counts (m : HCFManager) (x : Option String) :
    (flush m x).mgr.links_count = m.links_count ∧
    ∀ t, (flush m x).mgr.links_to_flush_count t ≤ m.links_to_flush_count t := by
  cases x with
  | none =>
    constructor
    · by_cases h : get_number_of_links_to_flush m none ≠ 0 <;> simp [flush, h]
    · intro t
      by_cases h : get_number_of_links_to_flush m none ≠ 0
      · simp only [flush, if_pos h]
        split <;> omega
      · simp [flush, h]
  | some s =>
    constructor
    · by_cases h : m.links_to_flush_count s ≠ 0 <;> simp [flush, h]
    · intro t
      by_cases h : m.links_to_flush_count s ≠ 0
      · simp only [flush, if_pos h]
        split <;> omega
      · simp [flush, h]

/-- The counter increments, pointwise. -/
theorem bumpCounters_links (m : HCFManager) (s t : String) :
    (bumpCounters m s).links_count t =
      if t = s then m.links_count t + 1 else m.links_count t := by
  by_cases ht : t = s <;> simp [bumpCounters, ht]

/-- The flush-counter increment, pointwise. -/
theorem bumpCounters_flush (m : HCFManager) (s t : String) :
    (bumpCounters m s).links_to_flush_count t =
      if t = s then m.links_to_flush_count t + 1
      else m.links_to_flush_count t := by
  by_cases ht : t = s <;> simp [bumpCounters, ht]

/-- The links-added counter after add_request: exactly one higher on the
slot, unchanged elsewhere. -/
theorem add_request_links_count (m : HCFManager) (s t : String) :
    (add_request m s).mgr.links_count t =
      (if t = s then m.links_count t + 1 else m.links_count t) := by
  rw [← bumpCounters_links m s t]
  by_cases hc : flushNeeded m s = true
  · simp only [add_request, if_pos hc]
    exact congrFun (flush_counts (bumpCounters m s) (some s)).1 t
  · simp only [add_request, if_neg hc]

/-- The flush counter after add_request never exceeds its incremented
value. -/
theorem add_request_flush_le (m : HCFManager) (s t : String) :
    (add_request m s).mgr.links_to_flush_count t ≤
      (if t = s then m.links_to_flush_count t + 1
       else m.links_to_flush_count t) := by
  rw [← bumpCounters_flush m s t]
  by_cases hc : flushNeeded m s = true
  · simp only [add_request, if_pos hc]
    exact (flush_counts (bumpCounters m s) (some s)).2 t
  · simp only [add_request, if_neg hc]
    exact le_refl _

/-- The per-slot invariant flushCounter ≤ linksCounter is preserved by
every operation. -/
theorem applyOp_inv (m : HCFManager) (op : MgrOp)
    (h : ∀ t, m.links_to_flush_count t ≤ m.links_count t) :
    ∀ t, (applyOp m op).links_to_flush_count t ≤ (applyOp m op).links_count t := by
  cases op with
  | addReq s =>
    intro t
    have h1 := add_request_links_count m s t
    have h2 := add_request_flush_le m s t
    simp only [applyOp]
    rw [h1]
    refine le_trans h2 ?_
    by_cases ht : t = s
    · simp only [ht, if_pos rfl]
      exact Nat.succ_le_succ (h s)
    · simp only [if_neg ht]
      exact h t
  | flushOp x =>
    intro t
    simp only [applyOp]
    rw [(flush_counts m x).1]
    exact le_trans ((flush_counts m x).2 t) (h t)

/-- The invariant holds after any run from an invariant state. -/
theorem runOps_inv (ops : List MgrOp) : ∀ (m : HCFManager),
    (∀ t, m.links_to_flush_count t ≤ m.links_count t) →
    ∀ t, (runOps m ops).links_to_flush_count t ≤ (runOps m ops).links_count t := by
  induction ops with
  | nil => intro m h t; exact h t
  | cons op rest ih =>
    intro m h t
    exact ih (applyOp m op) (applyOp_inv m op h) t

/-- When every attempt in reach of the retry budget fails, the loop
performs exactly the budget of attempts and yields no result. -/
theorem attemptLoop_all_fail {α : Type} (att : Nat → Transport α) :
    ∀ (fuel i : Nat), (∀ j, j < fuel → (att (i + j)).isOk = false) →
    attemptLoop att i fuel = (none, fuel) := by
  intro fuel
  induction fuel with
  | zero => intro i _; rfl
  | succ n ih =>
    intro i h
    have h0 : (att i).isOk = false := by
      have := h 0 (Nat.succ_pos n)
      simpa using this
    have hrec : attemptLoop att (i + 1) n = (none, n) := by
      refine ih (i + 1) (fun j hj => ?_)
      have := h (j + 1) (by omega)
      have harg : i + (j + 1) = i + 1 + j := by omega
      rwa [harg] at this
    cases hatt : att i with
    | ok v => rw [hatt] at h0; simp [Transport.isOk] at h0
    | readTimeout => simp [attemptLoop, hatt, hrec]
    | connectionError => simp [attemptLoop, hatt, hrec]
    | requestException => simp [attemptLoop, hatt, hrec]

/-- The count after a drain is the starting count plus the number taken,
and never exceeds the larger of limit and starting count. -/
theorem drain_count_spec (q : List Request) (cnt lim : Int) :
    (drain q cnt lim).count = cnt + ((drain q cnt lim).taken.length : Int) ∧
    (drain q cnt lim).count ≤ max lim cnt := by
  rw [drain_eq]
  simp only [List.length_take]
  constructor <;> omega

/-- Unfolding of the local request concatenation. -/
theorem localRequests_eq (b : Backend) (max0 : Int) :
    localRequests b max0 =
      (memDrain b max0).taken ++ (diskDrain b max0).taken := rfl

/-- The clamped limit never exceeds the argument. -/
theorem clampMax_le (b : Backend) (max0 : Int) : clampMax b max0 ≤ max0 := by
  unfold clampMax
  split <;> omega

/-- With a configured request quota, the clamped limit never exceeds the
quota remainder. -/
theorem clampMax_le_quota (b : Backend) (max0 : Int)
    (hq : 0 < b.hcf_consumer_max_requests) :
    clampMax b max0 ≤
      (b.hcf_consumer_max_requests : Int) - (b.n_consumed_requests : Int) := by
  unfold clampMax
  rw [if_pos hq]
  omega

end Lemmas

/-- Pushing one link through the disk-or-fallback step never removes
anything from the memory queue. -/
theorem pushLocal_mem_mono (st : Backend) (r x : Request)
    (h : x ∈ st.memory_queue) : x ∈ (pushLocal st r).memory_queue := by
  unfold pushLocal
  by_cases hs : r.serializable = true
  · rw [if_pos hs]
    cases hd : st.disk_queue <;> simp [hd, h]
  · rw [if_neg hs]
    exact List.mem_append_left _ h

/-- The disk-overflow fold never removes anything from the memory
queue. -/
theorem foldl_pushLocal_mono (l : List Request) :
    ∀ (st : Backend) (x : Request), x ∈ st.memory_queue →
    x ∈ (l.foldl pushLocal st).memory_queue := by
  induction l with
  | nil =>
    intro st x h
    exact h
  | cons a rest ih =>
    intro st x h
    exact ih (pushLocal st a) x (pushLocal_mem_mono st a x h)

/-- Every non-serializable link in the disk-overflow remainder ends up
in the memory queue. -/
theorem foldl_pushLocal_adds (l : List Request) :
    ∀ (st : Backend) (r : Request), r ∈ l → r.serializable = false →
    r ∈ (l.foldl pushLocal st).memory_queue := by
  induction l with
  | nil =>
    intro st r h _
    cases h
  | cons a rest ih =>
    intro st r hmem hser
    rcases List.mem_cons.mp hmem with heq | htl
    · subst heq
      rw [List.foldl_cons]
      apply foldl_pushLocal_mono
      simp [pushLocal, hser]
    · exact ih (pushLocal st a) r htl hser

/-- C9: with a disk queue configured, a locally-bound link whose disk
push fails with a serialization error is pushed to the memory queue
instead and is never dropped: after page_crawled it is a member of the
memory queue (as-is via the fallback path, or with its depth bumped if
it fell into the memory portion of the split). -/
theorem claim9_serialization_fallback (store : Request → Bool)
    (getSlot : Request → String) (b : Backend) (prod : HCFManager)
    (links : List Request) (dq : List Request) (r : Request)
    (hdisk : b.disk_queue = some dq) (hr : r ∈ links)
    (hlocal : store r = false) (hser : r.serializable = false) :
    r ∈ (page_crawled store getSlot b prod links).1.memory_queue ∨
    { r with meta_depth := r.meta_depth + 1 } ∈
      (page_crawled store getSlot b prod links).1.memory_queue := by
  have hdirect : r ∈ links.filter (fun x => !store x) :=
    List.mem_filter.mpr ⟨hr, by simp [hlocal]⟩
  simp only [page_crawled, hdisk]
  by_cases hpos :
      (0 : Int) < (b.max_memory_queue : Int) - (b.memory_queue.length : Int)
  · rw [if_pos hpos]
    dsimp only
    have hsplit : r ∈
        (links.filter (fun x => !store x)).take
          ((b.max_memory_queue : Int) - (b.memory_queue.length : Int)).toNat ++
        (links.filter (fun x => !store x)).drop
          ((b.max_memory_queue : Int) - (b.memory_queue.length : Int)).toNat := by
      rw [List.take_append_drop]
      exact hdirect
    rcases List.mem_append.mp hsplit with htk | hdp
    · right
      apply foldl_pushLocal_mono
      apply List.mem_append_right
      exact List.mem_map.mpr ⟨r, htk, rfl⟩
    · left
      exact foldl_pushLocal_adds _ _ r hdp hser
  · rw [if_neg hpos]
    dsimp only
    left
    exact foldl_pushLocal_adds _ _ r hdirect hser

/-- Witness for C9 at a concrete full disk-queue backend and a
non-serializable link. -/
theorem claim9_witness :
    reqN ∈ (page_crawled storeNone slotConst bC9 m3c [reqN]).1.memory_queue ∨
    { reqN with meta_depth := reqN.meta_depth + 1 } ∈
      (page_crawled storeNone slotConst bC9 m3c [reqN]).1.memory_queue :=
  claim9_serialization_fallback storeNone slotConst bC9 m3c [reqN] [] reqN
    rfl (by decide) rfl rfl

/-- C6: the default slot assignment is a pure deterministic function of
the request: an explicit hcf_producer_slot meta override is returned
verbatim; otherwise, with n the per-request slot-count override or else
the process-wide count, the slot is the prefix concatenated with the
fingerprint read as base 16 modulo n; two calls on identical inputs give
identical output (the embedded callback is a pure function of the
request and the configured count). -/
theorem claim6_slot_assignment (pre : String) (nS : Nat) (r : Request) :
    (producer_get_slot pre nS r = producer_get_slot pre nS r) ∧
    (∀ s, r.meta_slot_override = some s →
      producer_get_slot pre nS r = some s) ∧
    (∀ v, r.meta_slot_override = none →
      hexVal r.meta_fingerprint = some v →
      0 < r.meta_n_slots.getD nS →
      producer_get_slot pre nS r =
        some (get_producer_slot_name pre
          (toString (v % r.meta_n_slots.getD nS)))) := by
  refine ⟨rfl, ?_, ?_⟩
  · intro s hs
    simp [producer_get_slot, hs]
  · intro v hnone hv hn
    have hne : ¬(r.meta_n_slots.getD nS = 0) := by omega
    simp [producer_get_slot, hnone, hv, hne]

/-- Witness for C6: an explicit override is returned verbatim, and the
fingerprint ff with 8 slots lands on slot p7 (255 mod 8 = 7). -/
theorem claim6_witness :
    producer_get_slot "p" 8 reqOver = some "X" ∧
    producer_get_slot "p" 8 (baseReq "ff") =
      some (get_producer_slot_name "p"
        (toString (255 % (baseReq "ff").meta_n_slots.getD 8))) :=
  ⟨(claim6_slot_assignment "p" 8 reqOver).2.1 "X" rfl,
   (claim6_slot_assignment "p" 8 (baseReq "ff")).2.2 255 rfl (by decide)
     (by decide)⟩

/-- C10: when the request quota is configured and already met or
exceeded at the start of the call, get_next_requests returns the empty
list for every argument, even with non-empty local queues, and issues no
remote read. -/
theorem claim10_quota_exhausted (make : String → String → Option Request)
    (now : Int) (b : Backend) (remote : List Batch) (m : Int)
    (hq : 0 < b.hcf_consumer_max_requests)
    (hc : b.hcf_consumer_max_requests ≤ b.n_consumed_requests) :
    (get_next_requests make now b remote m).requests = [] ∧
    (get_next_requests make now b remote m).reads = 0 := by
  have hlim : clampMax b m ≤ 0 :=
    le_trans (clampMax_le_quota b m hq) (by omega)
  have htn : (clampMax b m - 0).toNat = 0 := by omega
  have hmem : memDrain b m = ⟨[], b.memory_queue, 0⟩ := by
    rw [memDrain, drain_eq, htn]
    simp
  have hdisk : (diskDrain b m).taken = [] := by
    cases hdq : b.disk_queue with
    | none => simp [diskDrain, hdq]
    | some dq =>
      simp only [diskDrain, hdq, hmem]
      rw [drain_eq, htn]
      simp
  have hreach : consumer_max_requests_reached b.hcf_consumer_max_requests
      b.n_consumed_requests = true := by
    unfold consumer_max_requests_reached
    rw [if_neg (by omega)]
    simpa using hc
  have hguard : ∀ L, pullGuard b L now = false := by
    intro L
    simp [pullGuard, hreach]
  constructor
  · simp [get_next_requests, hguard, hmem, hdisk]
  · simp [get_next_requests, hguard]

/-- Witness for C10 at a backend with quota 5 and 5 consumed and a
non-empty memory queue. -/
theorem claim10_witness :
    (get_next_requests mk1 100 bC10 [batchD] 10).requests = [] ∧
    (get_next_requests mk1 100 bC10 [batchD] 10).reads = 0 :=
  claim10_quota_exhausted mk1 100 bC10 [batchD] 10 (by decide) (by decide)

/-- Counterexample to C1 as stated: at a backend with request quota 5,
4 already consumed, empty local tiers and one pending remote batch of
two requests, get_next_requests with maxRequests 1 returns 2 items,
exceeding both maxRequests and the quota remainder, because the whole
batch returned by the single remote read is appended. -/
theorem claim1_counterexample :
    (get_next_requests mk1 100 bC1 [batch2] 1).requests.length = 2 ∧
    ¬((get_next_requests mk1 100 bC1 [batch2] 1).requests.length ≤ 1) := by
  decide

/-- C1 (amended): the items drained from the local tiers never number
more than max(maxRequests, 0), nor more than the request-quota remainder
when the quota is configured; whenever the remote-pull branch does not
run, the returned sequence is exactly those local items, so the caps
apply to it; only the remote pull can push the total past the caps,
by appending whole remote batches. -/
theorem claim1_local_cap (make : String → String → Option Request)
    (now : Int) (b : Backend) (remote : List Batch) (max0 : Int) :
    (((localRequests b max0).length : Int) ≤ max max0 0) ∧
    (0 < b.hcf_consumer_max_requests →
      ((localRequests b max0).length : Int) ≤
        max ((b.hcf_consumer_max_requests : Int) -
          (b.n_consumed_requests : Int)) 0) ∧
    (pullGuard b (localRequests b max0) now = false →
      (get_next_requests make now b remote max0).requests =
        localRequests b max0) := by
  have hm1 : (memDrain b max0).count =
      0 + ((memDrain b max0).taken.length : Int) := by
    rw [memDrain]
    exact (drain_count_spec _ _ _).1
  have hm2 : (memDrain b max0).count ≤ max (clampMax b max0) 0 := by
    rw [memDrain]
    exact (drain_count_spec _ _ _).2
  have hlen : ((localRequests b max0).length : Int) ≤
      max (clampMax b max0) 0 := by
    rw [localRequests_eq]
    cases hdq : b.disk_queue with
    | none =>
      have hd : (diskDrain b max0).taken = [] := by simp [diskDrain, hdq]
      rw [hd]
      simp only [List.append_nil, List.length_append]
      omega
    | some dq =>
      have hd1 : (diskDrain b max0).count =
          (memDrain b max0).count + ((diskDrain b max0).taken.length : Int) := by
        simp only [diskDrain, hdq]
        exact (drain_count_spec _ _ _).1
      have hd2 : (diskDrain b max0).count ≤
          max (clampMax b max0) (memDrain b max0).count := by
        simp only [diskDrain, hdq]
        exact (drain_count_spec _ _ _).2
      rw [List.length_append]
      push_cast
      omega
  refine ⟨?_, ?_, ?_⟩
  · have := clampMax_le b max0
    omega
  · intro hq
    have := clampMax_le_quota b max0 hq
    omega
  · intro hg
    have hg' : pullGuard b
        ((memDrain b max0).taken ++ (diskDrain b max0).taken) now = false := by
      rw [← localRequests_eq]
      exact hg
    simp [get_next_requests, hg', localRequests_eq]

/-- Witness for C1 (amended): quota-remainder cap at the concrete
quota-configured backend, and the guard-off case at the quota-exhausted
backend. -/
theorem claim1_witness :
    (((localRequests bC1 1).length : Int) ≤
      max ((bC1.hcf_consumer_max_requests : Int) -
        (bC1.n_consumed_requests : Int)) 0) ∧
    (get_next_requests mk1 100 bC10 [batchD] 10).requests =
      localRequests bC10 10 :=
  ⟨(claim1_local_cap mk1 100 bC1 [batch2] 1).2.1 (by decide),
   (claim1_local_cap mk1 100 bC10 [batchD] 10).2.2 (by decide)⟩

/-- C2: get_next_requests returns the memory drain, then the disk drain,
then the remote pull, in that order; the local parts are prefixes of
their queues (FIFO order preserved); and on the concrete example with
memory [A, B], disk [C], a remote queue yielding [D] and maxRequests 4
the result is exactly [A, B, C, D]. -/
theorem claim2_drain_order (make : String → String → Option Request)
    (now : Int) (b : Backend) (remote : List Batch) (max0 : Int) :
    ((get_next_requests make now b remote max0).requests =
      (memDrain b max0).taken ++ (diskDrain b max0).taken ++
        remotePulled make now b remote max0) ∧
    ((memDrain b max0).taken =
      b.memory_queue.take (clampMax b max0 - 0).toNat) ∧
    (∀ dq, b.disk_queue = some dq →
      (diskDrain b max0).taken =
        dq.take (clampMax b max0 - (memDrain b max0).count).toNat) ∧
    (get_next_requests mk1 100 bC2 [batchD] 4).requests =
      [reqA, reqB, reqC, reqD] := by
  refine ⟨?_, ?_, ?_, ?_⟩
  · simp only [get_next_requests, remotePulled, localRequests_eq]
    by_cases h : pullGuard b
        ((memDrain b max0).taken ++ (diskDrain b max0).taken) now = true
    · simp [h, List.append_assoc]
    · have h' : pullGuard b
          ((memDrain b max0).taken ++ (diskDrain b max0).taken) now = false :=
        Bool.eq_false_iff.mpr h
      simp [h']
  · rw [memDrain, drain_eq]
  · intro dq hdq
    simp only [diskDrain, hdq]
    rw [drain_eq]
  · decide

/-- Witness for C2: the disk part of the concrete example is the prefix
of the disk queue that the remaining allotment admits. -/
theorem claim2_witness :
    (diskDrain bC2 4).taken =
      [reqC].take (clampMax bC2 4 - (memDrain bC2 4).count).toNat :=
  (claim2_drain_order mk1 100 bC2 [batchD] 4).2.2.1 [reqC] rfl

/-- A call whose pull guard is off issues no remote read and leaves the
consumption counters, quota settings and consumer flag untouched. -/
theorem gnr_guard_off (make : String → String → Option Request)
    (now : Int) (b : Backend) (remote : List Batch) (max0 : Int)
    (hg : ∀ L, pullGuard b L now = false) :
    (get_next_requests make now b remote max0).reads = 0 ∧
    (get_next_requests make now b remote max0).backend.n_consumed_batches =
      b.n_consumed_batches ∧
    (get_next_requests make now b remote max0).backend.hcf_consumer_max_batches =
      b.hcf_consumer_max_batches := by
  refine ⟨?_, ?_, ?_⟩ <;> simp [get_next_requests, hg]

/-- Once the batches quota is reached, no call in any sequence of
get_next_requests calls ever issues a remote read. -/
theorem runCalls_batches_reached (make : String → String → Option Request) :
    ∀ (calls : List (Int × Int)) (b : Backend) (remote : List Batch),
    0 < b.hcf_consumer_max_batches →
    b.hcf_consumer_max_batches ≤ b.n_consumed_batches →
    runCalls make b remote calls = 0 := by
  intro calls
  induction calls with
  | nil =>
    intro b remote _ _
    rfl
  | cons c rest ih =>
    intro b remote h1 h2
    obtain ⟨cnow, cmax⟩ := c
    have hreach : consumer_max_batches_reached b.hcf_consumer_max_batches
        b.n_consumed_batches = true := by
      unfold consumer_max_batches_reached
      rw [if_neg (by omega)]
      simpa using h2
    have hg : ∀ L, pullGuard b L cnow = false := by
      intro L
      simp [pullGuard, hreach]
    have hoff := gnr_guard_off make cnow b remote cmax hg
    have hrest := ih (get_next_requests make cnow b remote cmax).backend
      (get_next_requests make cnow b remote cmax).remote
      (by rw [hoff.2.2]; exact h1)
      (by rw [hoff.2.2, hoff.2.1]; exact h2)
    simp only [runCalls]
    rw [hoff.1, hrest]

/-- C5: a remote read is issued during get_next_requests only when a
consumer role is configured, neither quota is already exhausted, and
either the local tiers yielded nothing or the polling throttle has
elapsed; whenever the remote-pull branch runs, the throttle deadline is
reset to now + 30 regardless of what was returned; and once the batches
quota is reached, no sequence of further calls ever issues a remote
read. -/
theorem claim5_remote_gate (make : String → String → Option Request)
    (now : Int) (b : Backend) (remote : List Batch) (max0 : Int)
    (calls : List (Int × Int)) :
    ((get_next_requests make now b remote max0).reads ≠ 0 →
      b.consumer = true ∧
      consumer_max_batches_reached b.hcf_consumer_max_batches
        b.n_consumed_batches = false ∧
      consumer_max_requests_reached b.hcf_consumer_max_requests
        b.n_consumed_requests = false ∧
      (localRequests b max0 = [] ∨
        b.delay_next_requests_from_hs < now)) ∧
    (pullGuard b (localRequests b max0) now = true →
      (get_next_requests make now b remote max0).backend.delay_next_requests_from_hs
        = now + delay_hs_read) ∧
    (0 < b.hcf_consumer_max_batches →
      b.hcf_consumer_max_batches ≤ b.n_consumed_batches →
      runCalls make b remote calls = 0) := by
  refine ⟨?_, ?_, ?_⟩
  · intro hr
    by_cases hg : pullGuard b (localRequests b max0) now = true
    · have hcomp := hg
      simp only [pullGuard, Bool.and_eq_true, Bool.or_eq_true,
        Bool.not_eq_true', Bool.or_eq_false_iff, decide_eq_true_eq,
        List.isEmpty_iff] at hcomp
      exact ⟨hcomp.1.1, hcomp.1.2.1, hcomp.1.2.2, hcomp.2⟩
    · have hg' : ∀ L, L = localRequests b max0 → pullGuard b L now = false :=
        fun L hL => hL ▸ Bool.eq_false_iff.mpr hg
      have hz : (get_next_requests make now b remote max0).reads = 0 := by
        have hgf := hg' ((memDrain b max0).taken ++ (diskDrain b max0).taken)
          (localRequests_eq b max0).symm
        simp [get_next_requests, hgf]
      exact absurd hz hr
  · intro hg
    have hg' : pullGuard b
        ((memDrain b max0).taken ++ (diskDrain b max0).taken) now = true := by
      rw [← localRequests_eq]
      exact hg
    simp [get_next_requests, hg']
  · exact runCalls_batches_reached make calls b remote

/-- Witness for C5: at a consumer backend with empty local tiers the
single call issues a read (so the gate conditions hold), the throttle is
reset to 130, and at the batches-exhausted backend a sequence of calls
issues no read. -/
theorem claim5_witness :
    (bC5b.consumer = true ∧
     consumer_max_batches_reached bC5b.hcf_consumer_max_batches
       bC5b.n_consumed_batches = false ∧
     consumer_max_requests_reached bC5b.hcf_consumer_max_requests
       bC5b.n_consumed_requests = false ∧
     (localRequests bC5b 5 = [] ∨
       bC5b.delay_next_requests_from_hs < 100)) ∧
    (get_next_requests mk1 100 bC5b [batchD] 5).backend.delay_next_requests_from_hs
      = 100 + delay_hs_read ∧
    runCalls mk1 bC5 [batchD] [(100, 5), (200, 5)] = 0 :=
  ⟨(claim5_remote_gate mk1 100 bC5b [batchD] 5 []).1 (by decide),
   (claim5_remote_gate mk1 100 bC5b [batchD] 5 []).2.1 (by decide),
   (claim5_remote_gate mk1 100 bC5 [batchD] 5 [(100, 5), (200, 5)]).2.2
     (by decide) (by decide)⟩

/-- C4: read under sustained transient transport failure performs
exactly 10 attempts and returns the empty sequence without raising;
delete under the same sustained failure performs exactly 10 attempts and
returns normally with no deletion performed.  (Both read and delete are
total functions: no exception escapes them by construction.) -/
theorem claim4_retry_exhaustion
    (ra : Nat → Transport (List Batch)) (da : Nat → Transport Unit)
    (hra : ∀ i, i < hcf_retries → (ra i).isOk = false)
    (hda : ∀ i, i < hcf_retries → (da i).isOk = false) :
    read ra = ([], 10) ∧ delete da = (false, 10) := by
  have h1 : attemptLoop ra 0 hcf_retries = (none, hcf_retries) :=
    attemptLoop_all_fail ra hcf_retries 0 (fun j hj => by simpa using hra j hj)
  have h2 : attemptLoop da 0 hcf_retries = (none, hcf_retries) :=
    attemptLoop_all_fail da hcf_retries 0 (fun j hj => by simpa using hda j hj)
  have h1' : attemptLoop ra 0 10 = (none, 10) := h1
  have h2' : attemptLoop da 0 10 = (none, 10) := h2
  constructor
  · simp [read, hcf_retries, h1']
  · simp [delete, hcf_retries, h2']

/-- Witness for C4 at the always-failing oracles. -/
theorem claim4_witness :
    read failRead = ([], 10) ∧ delete failDel = (false, 10) :=
  claim4_retry_exhaustion failRead failDel
    (fun _ _ => rfl) (fun _ _ => rfl)

/-- C8: for every slot and after every sequence of add_request and flush
operations from a fresh manager, the flush counter is at most the
links-added counter, and both counters are non-negative. -/
theorem claim8_counter_invariant (B : Nat) (ops : List MgrOp) (s : String) :
    (runOps (initMgr B) ops).links_to_flush_count s ≤
      (runOps (initMgr B) ops).links_count s ∧
    0 ≤ (runOps (initMgr B) ops).links_to_flush_count s ∧
    0 ≤ (runOps (initMgr B) ops).links_count s := by
  refine ⟨?_, Nat.zero_le _, Nat.zero_le _⟩
  exact runOps_inv ops (initMgr B) (fun _ => Nat.le_refl 0) s

/-- C3: with a configured batch size B > 0, add_request triggers exactly
one flush of the slot (one writer flush event), returns the flushed
count and resets the flush counter of the slot to 0 precisely when the
incremented counter reaches or exceeds B; below B, or with no batch size
configured, no flush happens and 0 is returned. -/
theorem claim3_add_request_flush (m : HCFManager) (s : String) :
    (m.batch_size ≠ 0 → m.batch_size ≤ m.links_to_flush_count s + 1 →
      (add_request m s).n = m.links_to_flush_count s + 1 ∧
      (add_request m s).mgr.links_to_flush_count s = 0 ∧
      (add_request m s).events =
        [RemoteEvent.addEv s, RemoteEvent.flushSlotEv s]) ∧
    (m.batch_size ≠ 0 → m.links_to_flush_count s + 1 < m.batch_size →
      (add_request m s).n = 0 ∧
      (add_request m s).mgr.links_to_flush_count s =
        m.links_to_flush_count s + 1 ∧
      (add_request m s).events = [RemoteEvent.addEv s]) ∧
    (m.batch_size = 0 →
      (add_request m s).n = 0 ∧
      (add_request m s).mgr.links_to_flush_count s =
        m.links_to_flush_count s + 1 ∧
      (add_request m s).events = [RemoteEvent.addEv s]) := by
  refine ⟨?_, ?_, ?_⟩
  · intro h1 h2
    have hc : flushNeeded m s = true := by
      simp [flushNeeded, h1, h2]
    simp [add_request, hc, flush, bumpCounters]
  · intro h1 h2
    have hc : flushNeeded m s = false := by
      simp [flushNeeded]
      omega
    simp [add_request, hc, bumpCounters]
  · intro h1
    have hc : flushNeeded m s = false := by
      simp [flushNeeded, h1]
    simp [add_request, hc, bumpCounters]

/-- Witness for C3 at three concrete managers: threshold reached,
threshold not reached, and no batch size configured. -/
theorem claim3_witness :
    ((add_request m3a "a").n = m3a.links_to_flush_count "a" + 1 ∧
     (add_request m3a "a").mgr.links_to_flush_count "a" = 0 ∧
     (add_request m3a "a").events =
       [RemoteEvent.addEv "a", RemoteEvent.flushSlotEv "a"]) ∧
    ((add_request m3b "a").n = 0 ∧
     (add_request m3b "a").mgr.links_to_flush_count "a" =
       m3b.links_to_flush_count "a" + 1 ∧
     (add_request m3b "a").events = [RemoteEvent.addEv "a"]) ∧
    ((add_request m3c "a").n = 0 ∧
     (add_request m3c "a").mgr.links_to_flush_count "a" =
       m3c.links_to_flush_count "a" + 1 ∧
     (add_request m3c "a").events = [RemoteEvent.addEv "a"]) :=
  ⟨(claim3_add_request_flush m3a "a").1 (by decide) (by decide),
   (claim3_add_request_flush m3b "a").2.1 (by decide) (by decide),
   (claim3_add_request_flush m3c "a").2.2 (by decide)⟩

/-- C7: flush(None) returns the sum of the flush counters of all slots
and zeroes them all in one call (under the reachable-state invariant
that slots absent from the dictionary carry 0); flush(s) returns and
zeroes only the counter of s, leaving every other flush counter and all
links-added counters unchanged; a flush that returns 0 issues no remote
call, so a second flush right after a flush is a no-op returning 0. -/
theorem claim7_flush_frame (m : HCFManager) (s : String) :
    (MgrWF m →
      (flush m none).n = get_number_of_links_to_flush m none ∧
      (∀ t, (flush m none).mgr.links_to_flush_count t = 0) ∧
      (flush m none).mgr.links_count = m.links_count) ∧
    ((flush m (some s)).n = m.links_to_flush_count s ∧
     (flush m (some s)).mgr.links_to_flush_count s = 0 ∧
     (∀ t, t ≠ s →
       (flush m (some s)).mgr.links_to_flush_count t =
         m.links_to_flush_count t) ∧
     (flush m (some s)).mgr.links_count = m.links_count) ∧
    (∀ x, get_number_of_links_to_flush m x = 0 → (flush m x).events = []) ∧
    (∀ x, (flush (flush m x).mgr x).n = 0 ∧
      (flush (flush m x).mgr x).events = []) := by
  refine ⟨?_, ?_, ?_, ?_⟩
  · intro hwf
    refine ⟨?_, ?_, ?_⟩
    · by_cases h : (m.slots.map m.links_to_flush_count).sum ≠ 0 <;>
        simp [flush_none_eq, gnl_none, h]
    · intro t
      by_cases h : (m.slots.map m.links_to_flush_count).sum ≠ 0
      · rw [flush_none_eq, if_pos h]
        by_cases ht : t ∈ m.slots
        · simp [ht]
        · simp [ht, hwf t ht]
      · push_neg at h
        rw [flush_none_eq, if_neg (not_not_intro h)]
        by_cases ht : t ∈ m.slots
        · exact List.sum_eq_zero_iff.mp h (m.links_to_flush_count t)
            (List.mem_map.mpr ⟨t, ht, rfl⟩)
        · exact hwf t ht
    · by_cases h : (m.slots.map m.links_to_flush_count).sum ≠ 0 <;>
        simp [flush_none_eq, h]
  · refine ⟨?_, ?_, ?_, ?_⟩
    · by_cases h : m.links_to_flush_count s ≠ 0 <;> simp [flush_some_eq, h]
    · by_cases h : m.links_to_flush_count s ≠ 0
      · simp [flush_some_eq, h]
      · push_neg at h
        simp [flush_some_eq, h]
    · intro t ht
      by_cases h : m.links_to_flush_count s ≠ 0 <;>
        simp [flush_some_eq, h, ht]
    · by_cases h : m.links_to_flush_count s ≠ 0 <;> simp [flush_some_eq, h]
  · intro x hx
    cases x with
    | none =>
      rw [gnl_none] at hx
      exact (flush_none_zero m hx).2
    | some t =>
      rw [gnl_some] at hx
      exact (flush_some_zero m t hx).2
  · intro x
    cases x with
    | none =>
      have hz : ((flush m none).mgr.slots.map
          (flush m none).mgr.links_to_flush_count).sum = 0 := by
        by_cases h : (m.slots.map m.links_to_flush_count).sum ≠ 0
        · rw [flush_none_eq, if_pos h]
          refine List.sum_eq_zero (fun x hx => ?_)
          rcases List.mem_map.mp hx with ⟨t, ht, rfl⟩
          simp [ht]
        · push_neg at h
          rw [flush_none_eq, if_neg (not_not_intro h)]
          exact h
      exact flush_none_zero (flush m none).mgr hz
    | some t =>
      have hz : (flush m (some t)).mgr.links_to_flush_count t = 0 := by
        by_cases h : m.links_to_flush_count t ≠ 0
        · simp [flush_some_eq, h]
        · push_neg at h
          simp [flush_some_eq, h]
      exact flush_some_zero (flush m (some t)).mgr t hz

/-- Witness for C7 at a concrete manager: global flush returns the sum 2,
zeroes every slot, and the immediate second flush is a no-op. -/
theorem claim7_witness :
    ((flush m7 none).n = get_number_of_links_to_flush m7 none ∧
     (flush m7 none).mgr.links_to_flush_count "b" = 0 ∧
     (flush m7 none).mgr.links_count = m7.links_count) ∧
    (flush (flush m7 none).mgr none).n = 0 ∧
    (flush (flush m7 none).mgr none).events = [] := by
  have hwf : MgrWF m7 := by
    intro s hs
    simp only [m7, List.mem_singleton] at hs ⊢
    simp [hs]
  have h := claim7_flush_frame m7 "a"
  exact ⟨⟨(h.1 hwf).1, (h.1 hwf).2.1 "b", (h.1 hwf).2.2⟩,
    (h.2.2.2 none).1, (h.2.2.2 none).2⟩

end HCFSpec
